import Mathlib

namespace Cfmm

/-!
Verification of the CFMM pallet (`pallets/cfmm/src/lib.rs`): a shallow
embedding of the pallet's arithmetic kernel, asset-pair canonicalization,
liquidity registry and the three extrinsics (`add_liquidity`,
`remove_liquidity`, `exchange`), together with theorems settling the spec's
claims about them.

Balances (`AssetBalance`) are modelled as natural numbers below a bound `B`
(the number of representable values of the fixed-width balance type, e.g.
`2^32` for the mock runtime's `u32`).  The wide intermediate type
`BalanceMulResult = U256` is modelled as naturals below `2^256`.  Checked
operations return `Except ArithmeticError Nat` exactly as the Rust checked
operations return `Result<_, ArithmeticError>`.
-/

/-- The number of values of the wide intermediate type `U256`. -/
def WIDE : Nat := 2 ^ 256

/-- Model of `sp_runtime::ArithmeticError`. -/
inductive ArithmeticError where
  | Overflow
  | Underflow
  | DivisionByZero
  deriving DecidableEq, Repr

/-- Model of `fn add<T: CheckedAdd>(a, b)`: checked addition on the balance type with
`B` representable values; fails with `Overflow` on wraparound. -/
def addChecked (B a b : Nat) : Except ArithmeticError Nat :=
  if a + b < B then .ok (a + b) else .error .Overflow

/-- Model of `fn sub<T: CheckedSub>(a, b)`: checked subtraction on the balance type;
fails with `Underflow` on wraparound. -/
def subChecked (a b : Nat) : Except ArithmeticError Nat :=
  if b ≤ a then .ok (a - b) else .error .Underflow

/-- Model of `fn mul(a, b)`: widening multiplication into `BalanceMulResult = U256`,
using `U256::checked_mul`; fails with `Overflow` only if the product does not
fit in 256 bits. -/
def mulWide (a b : Nat) : Except ArithmeticError Nat :=
  if a * b < WIDE then .ok (a * b) else .error .Overflow

/-- Model of `fn mul_div_floor(a, b, c) = floor((a * b) / c)`: wide product, then
`U256::checked_div` (fails with `DivisionByZero` iff `c = 0`), then narrowing
`TryFrom` back into the balance type (fails with `Overflow` iff the result is
`≥ B`). -/
def mul_div_floor (B a b c : Nat) : Except ArithmeticError Nat :=
  match mulWide a b with
  | .error e => .error e
  | .ok p =>
    match (if c = 0 then (.error .DivisionByZero : Except ArithmeticError Nat)
           else .ok (p / c)) with
    | .error e => .error e
    | .ok q => if q < B then .ok q else .error .Overflow

/-- Model of `fn mul_div_ceil(a, b, c) = ceil((a * b) / c)`: first computes
`c - 1` via `U256::checked_sub` (fails with `Underflow` iff `c = 0`), then the
wide product, then the biased sum `a*b + (c-1)` via `U256::checked_add`, then
`U256::checked_div`, then narrows back into the balance type. -/
def mul_div_ceil (B a b c : Nat) : Except ArithmeticError Nat :=
  match (if 1 ≤ c then (.ok (c - 1) : Except ArithmeticError Nat)
         else .error .Underflow) with
  | .error e => .error e
  | .ok cm1 =>
    match mulWide a b with
    | .error e => .error e
    | .ok p =>
      match (if p + cm1 < WIDE then (.ok (p + cm1) : Except ArithmeticError Nat)
             else .error .Overflow) with
      | .error e => .error e
      | .ok biased =>
        match (if c = 0 then (.error .DivisionByZero : Except ArithmeticError Nat)
               else .ok (biased / c)) with
        | .error e => .error e
        | .ok q => if q < B then .ok q else .error .Overflow

/-- Ceiling division on naturals, `ceil (x / c)` for `c > 0`. -/
def cdiv (x c : Nat) : Nat := (x + c - 1) / c

/-- Model of `Permill::mul_ceil(x)` for a `Permill` holding `p` parts per million, as
computed by substrate's `overflow_prune_mul` with `Rounding::Up`:
`x / 10^6 * p` plus the upwards-rounded rational correction on `x % 10^6`. -/
def permill_mul_ceil (p x : Nat) : Nat :=
  x / 1000000 * p +
    (x % 1000000 * p / 1000000 + (if x % 1000000 * p % 1000000 = 0 then 0 else 1))

/-! ## Asset-pair canonicalization -/

/-- Pallet and ledger errors (`Error<T>` of the pallet, `ArithmeticError`,
and the errors the external asset ledger's `transfer` can return, all of
which the pallet surfaces unchanged as a `DispatchError`). -/
inductive Err where
  | Arith (e : ArithmeticError)
  | AssetsIdentical
  | InsufficientPoolAmount
  | NoLiquidity
  | UnexpectedExchangeRate
  | TokenBalanceLow
  | TokenWouldDie
  | TokenBelowMinimum
  | TokenOverflow
  deriving DecidableEq, Repr

/-- Lexicographic order on byte strings: `Ord` on rust `Vec<u8>`
(`a.encode() < b.encode()`). A strict prefix is smaller. -/
def bytesLt : List Nat → List Nat → Bool
  | [], [] => false
  | [], _ :: _ => true
  | _ :: _, [] => false
  | x :: xs, y :: ys => if x < y then true else if y < x then false else bytesLt xs ys

/-- SCALE encoding of a `u32` asset id: four little-endian bytes. -/
def u32le (n : Nat) : List Nat :=
  [n % 256, n / 256 % 256, n / 65536 % 256, n / 16777216 % 256]

/-- Model of `fn make_asset_pair<T>(a, b)`, generic in the asset ids' `Encode`
implementation `enc`: fail with `AssetsIdentical` if the ids are equal,
otherwise order the pair by the lexicographic order of the encodings. -/
def make_asset_pair_enc (enc : Nat → List Nat) (a b : Nat) :
    Except Err (Nat × Nat) :=
  if a = b then .error .AssetsIdentical
  else .ok (if bytesLt (enc a) (enc b) then (a, b) else (b, a))

/-- Specialization of `make_asset_pair_enc` at the mock runtime's `AssetId = u32`. -/
def make_asset_pair (a b : Nat) : Except Err (Nat × Nat) :=
  make_asset_pair_enc u32le a b

/-! ## External asset ledger (collaborator) and pallet state -/

/-- The external asset ledger's observable state: per-asset per-account
balances and per-asset minimum (existential) balances. -/
structure Ledger where
  balance : Nat → Nat → Nat
  minBalance : Nat → Nat

def Ledger.setBalance (L : Ledger) (asset acct v : Nat) : Ledger :=
  { L with balance := fun a x => if a = asset ∧ x = acct then v else L.balance a x }

/-- Modelled from the spec: `reducibleBalance(assetId, account, keepAlive)` of
the external asset ledger (`T::Fungibles::reducible_balance`, implemented
outside this repository) — the whole balance when the account may be killed,
and the balance above the minimum when it must stay alive. -/
def Ledger.reducible (L : Ledger) (asset acct : Nat) (keepAlive : Bool) : Nat :=
  if keepAlive then L.balance asset acct - L.minBalance asset
  else L.balance asset acct

/-- Modelled from the spec: `transfer(assetId, from, to, amount, keepAliveSource)`
of the external asset ledger (`T::Fungibles::transfer`, implemented outside
this repository).  A zero transfer is a no-op; the transfer fails if the
source holds too little, or if `keepAlive` is set and the transfer would push
the source below the minimum balance; when the source may be killed, a
transfer that would leave it strictly between zero and the minimum balance
debits the whole balance instead (the spec: the ledger "may deliver slightly
more than requested ... to avoid sub-minimum dust balances"); the destination
may not be left with a non-zero balance below the minimum and may not
overflow.  Returns the updated ledger and the actual amount moved. -/
def Ledger.transfer (L : Ledger) (B asset src dst amount : Nat)
    (keepAlive : Bool) : Except Err (Ledger × Nat) :=
  if amount = 0 then .ok (L, 0)
  else
    let bal := L.balance asset src
    let minb := L.minBalance asset
    if bal < amount then .error .TokenBalanceLow
    else if keepAlive ∧ bal - amount < minb then .error .TokenWouldDie
    else
      let actual := if ¬keepAlive ∧ bal - amount < minb then bal else amount
      let L1 := L.setBalance asset src (bal - actual)
      let dbal := L1.balance asset dst
      if dbal = 0 ∧ actual < minb then .error .TokenBelowMinimum
      else if ¬(dbal + actual < B) then .error .TokenOverflow
      else .ok (L1.setBalance asset dst (dbal + actual), actual)

/-- The pallet's runtime configuration (`Config` trait constants) together
with the width of the balance type and the pool-account derivation
(`get_pool_account`, abstracted as a function of the canonical pair). -/
structure Config where
  B : Nat
  poolMinAmountMultiple : Nat
  initialLiquidityPerAssetUnit : Nat
  exchangeFee : Nat
  poolAccount : Nat × Nat → Nat

/-- The pallet's storage (`TotalLiquidity` and `Liquidity`, both `ValueQuery`
maps, so an absent entry reads as zero and removing an entry is setting it to
zero) together with the external ledger's state. -/
structure State where
  ledger : Ledger
  totalLiquidity : Nat × Nat → Nat
  liquidity : Nat → Nat × Nat → Nat

def State.setTotal (s : State) (pair : Nat × Nat) (v : Nat) : State :=
  { s with totalLiquidity := fun p => if p = pair then v else s.totalLiquidity p }

def State.setLiq (s : State) (acct : Nat) (pair : Nat × Nat) (v : Nat) : State :=
  { s with liquidity := fun a p => if a = acct ∧ p = pair then v else s.liquidity a p }

/-- Model of `Pallet::get_min_pool_amount`: `minimum_balance(asset)` checked-multiplied
by `PoolMinAmountMultiple`. -/
def get_min_pool_amount (cfg : Config) (L : Ledger) (asset : Nat) :
    Except Err Nat :=
  let m := L.minBalance asset * cfg.poolMinAmountMultiple
  if m < cfg.B then .ok m else .error (.Arith .Overflow)

/-- One `ensure!(mul_div_floor(reserve, claims, total)? >=
get_min_pool_amount(asset)?, InsufficientPoolAmount)` line of
`add_liquidity`/`remove_liquidity`. -/
def check_account_share (cfg : Config) (L : Ledger)
    (reserve claims total asset : Nat) : Except Err Unit :=
  match mul_div_floor cfg.B reserve claims total with
  | .error e => .error (.Arith e)
  | .ok x =>
    match get_min_pool_amount cfg L asset with
    | .error e => .error e
    | .ok m => if x ≥ m then .ok () else .error .InsufficientPoolAmount

/-- The `(added_liquidity, amount_a, amount_b)` computation of
`add_liquidity`: the first-provider branch uses
`max(max_amount_a, max_amount_b).saturating_mul(InitialLiquidityPerAssetUnit)`
(saturating at the largest balance `B - 1`) and the full maxima; otherwise the
wide products `max_amount_a * pool_amount_b` and `max_amount_b * pool_amount_a`
are compared, the added liquidity is rounded down and the actual amounts are
rounded up. -/
def add_liquidity_amounts (cfg : Config) (total pA pB maxA maxB : Nat) :
    Except ArithmeticError (Nat × Nat × Nat) :=
  if total = 0 then
    .ok (min (max maxA maxB * cfg.initialLiquidityPerAssetUnit) (cfg.B - 1),
      maxA, maxB)
  else
    match mulWide maxA pB with
    | .error e => .error e
    | .ok mA =>
      match mulWide maxB pA with
      | .error e => .error e
      | .ok mB =>
        match (if mA < mB then mul_div_floor cfg.B maxA total pA
               else mul_div_floor cfg.B maxB total pB) with
        | .error e => .error e
        | .ok added =>
          match mul_div_ceil cfg.B added pA total with
          | .error e => .error e
          | .ok amtA =>
            match mul_div_ceil cfg.B added pB total with
            | .error e => .error e
            | .ok amtB => .ok (added, amtA, amtB)

/-! ## The three operations

Each operation is written as an "inner" body that threads the storage state
through every mutation (so an error carries the state at the failure point,
exactly the partially-mutated storage the Rust body has written), wrapped by
`transact`, the model of the `#[transactional]` attribute: on error all
mutations are discarded and the pre-state is returned. -/

def transact {α : Type} (s : State) (r : Except (State × Err) (State × α)) :
    State × Except Err α :=
  match r with
  | .ok (s', a) => (s', .ok a)
  | .error (_, e) => (s, .error e)

/-- Body of `Pallet::add_liquidity` (after `ensure_signed`). Returns the
final state with the actual transferred amounts and the added liquidity. -/
def add_liquidity_inner (cfg : Config) (s : State)
    (sender aA minA maxA aB minB maxB : Nat) :
    Except (State × Err) (State × Nat × Nat × Nat) :=
  match make_asset_pair aA aB with
  | .error e => .error (s, e)
  | .ok pair =>
    let total := s.totalLiquidity pair
    let pool := cfg.poolAccount pair
    let pA := s.ledger.balance aA pool
    let pB := s.ledger.balance aB pool
    match add_liquidity_amounts cfg total pA pB maxA maxB with
    | .error e => .error (s, .Arith e)
    | .ok (added, amtA, amtB) =>
      if ¬(amtA ≥ minA) then .error (s, .UnexpectedExchangeRate)
      else if ¬(amtB ≥ minB) then .error (s, .UnexpectedExchangeRate)
      else
        match s.ledger.transfer cfg.B aA sender pool amtA false with
        | .error e => .error (s, e)
        | .ok (lg1, actA) =>
          let s1 : State := { s with ledger := lg1 }
          match addChecked cfg.B pA actA with
          | .error e => .error (s1, .Arith e)
          | .ok pA1 =>
            match lg1.transfer cfg.B aB sender pool amtB false with
            | .error e => .error (s1, e)
            | .ok (lg2, actB) =>
              let s2 : State := { s1 with ledger := lg2 }
              match addChecked cfg.B pB actB with
              | .error e => .error (s2, .Arith e)
              | .ok pB1 =>
                match addChecked cfg.B total added with
                | .error e => .error (s2, .Arith e)
                | .ok total1 =>
                  let s3 := s2.setTotal pair total1
                  match addChecked cfg.B (s3.liquidity sender pair) added with
                  | .error e => .error (s3, .Arith e)
                  | .ok senderLiq1 =>
                    let s4 := s3.setLiq sender pair senderLiq1
                    match check_account_share cfg s4.ledger pA1 senderLiq1 total1 aA with
                    | .error e => .error (s4, e)
                    | .ok _ =>
                      match check_account_share cfg s4.ledger pB1 senderLiq1 total1 aB with
                      | .error e => .error (s4, e)
                      | .ok _ => .ok (s4, actA, actB, added)

/-- Model of `Pallet::add_liquidity` as dispatched: transactional. -/
def add_liquidity (cfg : Config) (s : State)
    (sender aA minA maxA aB minB maxB : Nat) :
    State × Except Err (Nat × Nat × Nat) :=
  transact s (add_liquidity_inner cfg s sender aA minA maxA aB minB maxB)

/-- Body of `Pallet::remove_liquidity` (after `ensure_signed`). -/
def remove_liquidity_inner (cfg : Config) (s : State) (sender aA aB liq : Nat) :
    Except (State × Err) (State × Nat × Nat) :=
  match make_asset_pair aA aB with
  | .error e => .error (s, e)
  | .ok pair =>
    let total := s.totalLiquidity pair
    let pool := cfg.poolAccount pair
    let pA := s.ledger.balance aA pool
    let pB := s.ledger.balance aB pool
    match mul_div_floor cfg.B liq pA total with
    | .error e => .error (s, .Arith e)
    | .ok amtA =>
      match mul_div_floor cfg.B liq pB total with
      | .error e => .error (s, .Arith e)
      | .ok amtB =>
        match subChecked total liq with
        | .error e => .error (s, .Arith e)
        | .ok total1 =>
          let s1 := s.setTotal pair total1
          match subChecked (s1.liquidity sender pair) liq with
          | .error e => .error (s1, .Arith e)
          | .ok senderLiq1 =>
            let s2 := s1.setLiq sender pair senderLiq1
            let keepAlive : Bool := if total1 = 0 then false else true
            let amtA2 := min amtA (s2.ledger.reducible aA pool keepAlive)
            let amtB2 := min amtB (s2.ledger.reducible aB pool keepAlive)
            match s2.ledger.transfer cfg.B aA pool sender amtA2 keepAlive with
            | .error e => .error (s2, e)
            | .ok (lg1, actA) =>
              let s3 : State := { s2 with ledger := lg1 }
              match subChecked pA actA with
              | .error e => .error (s3, .Arith e)
              | .ok pA1 =>
                match lg1.transfer cfg.B aB pool sender amtB2 keepAlive with
                | .error e => .error (s3, e)
                | .ok (lg2, actB) =>
                  let s4 : State := { s3 with ledger := lg2 }
                  match subChecked pB actB with
                  | .error e => .error (s4, .Arith e)
                  | .ok pB1 =>
                    if senderLiq1 = 0 then .ok (s4, actA, actB)
                    else
                      match check_account_share cfg s4.ledger pA1 senderLiq1 total1 aA with
                      | .error e => .error (s4, e)
                      | .ok _ =>
                        match check_account_share cfg s4.ledger pB1 senderLiq1 total1 aB with
                        | .error e => .error (s4, e)
                        | .ok _ => .ok (s4, actA, actB)

/-- Model of `Pallet::remove_liquidity` as dispatched: transactional. -/
def remove_liquidity (cfg : Config) (s : State) (sender aA aB liq : Nat) :
    State × Except Err (Nat × Nat) :=
  transact s (remove_liquidity_inner cfg s sender aA aB liq)

/-- The `(source_fee, new_pool_dest_amount, dest_amount)` computation of
`exchange`: the ceiling fee on the source amount, the checked new gross and
net source reserves, the product-preserving (ceiling-rounded) new destination
reserve and the uncapped paid-out amount. -/
def exchange_amounts (cfg : Config) (ps pd srcAmt : Nat) :
    Except ArithmeticError (Nat × Nat × Nat) :=
  let fee := permill_mul_ceil cfg.exchangeFee srcAmt
  match addChecked cfg.B ps srcAmt with
  | .error e => .error e
  | .ok nps =>
    match subChecked nps fee with
    | .error e => .error e
    | .ok lessFee =>
      match mul_div_ceil cfg.B ps pd lessFee with
      | .error e => .error e
      | .ok npd =>
        match subChecked pd npd with
        | .error e => .error e
        | .ok dest => .ok (fee, npd, dest)

/-- Body of `Pallet::exchange` (after `ensure_signed`). -/
def exchange_inner (cfg : Config) (s : State)
    (sender srcAsset srcAmt dstAsset minDest : Nat) :
    Except (State × Err) (State × Nat × Nat) :=
  match make_asset_pair srcAsset dstAsset with
  | .error e => .error (s, e)
  | .ok pair =>
    let pool := cfg.poolAccount pair
    let ps := s.ledger.balance srcAsset pool
    let pd := s.ledger.balance dstAsset pool
    if ps = 0 then .error (s, .NoLiquidity)
    else if pd = 0 then .error (s, .NoLiquidity)
    else
      match exchange_amounts cfg ps pd srcAmt with
      | .error e => .error (s, .Arith e)
      | .ok (_, _, dest) =>
        let dest2 := min dest (s.ledger.reducible dstAsset pool true)
        if ¬(dest2 ≥ minDest) then .error (s, .UnexpectedExchangeRate)
        else
          match s.ledger.transfer cfg.B srcAsset sender pool srcAmt false with
          | .error e => .error (s, e)
          | .ok (lg1, actSrc) =>
            let s1 : State := { s with ledger := lg1 }
            match lg1.transfer cfg.B dstAsset pool sender dest2 true with
            | .error e => .error (s1, e)
            | .ok (lg2, actDst) =>
              .ok ({ s1 with ledger := lg2 }, actSrc, actDst)

/-- Model of `Pallet::exchange` as dispatched: transactional. -/
def exchange (cfg : Config) (s : State)
    (sender srcAsset srcAmt dstAsset minDest : Nat) :
    State × Except Err (Nat × Nat) :=
  transact s (exchange_inner cfg s sender srcAsset srcAmt dstAsset minDest)

/-- Model of `Pallet::get_exchange_rate`: the pool account's balances of the two
assets, in caller order; `(0, 0)` for an invalid pair. -/
def get_exchange_rate (cfg : Config) (s : State) (aA aB : Nat) : Nat × Nat :=
  match make_asset_pair aA aB with
  | .ok pair =>
    let pool := cfg.poolAccount pair
    (s.ledger.balance aA pool, s.ledger.balance aB pool)
  | .error _ => (0, 0)

/-! ## Fixtures: the mock runtime's configuration and some concrete states -/

/-- The mock runtime's constants (`mock.rs`): `Balance = u32`,
`PoolMinAmountMultiple = 10`, `InitialLiquidityPerAssetUnit = 10`,
`ExchangeFee = 10%`, with an injective pool-account derivation whose values
are disjoint from the small user account ids. -/
def cfgW : Config :=
  { B := 4294967296, poolMinAmountMultiple := 10,
    initialLiquidityPerAssetUnit := 10, exchangeFee := 100000,
    poolAccount := fun p => 1000000 + 65536 * p.1 + p.2 }

/-- Genesis fixture (`create_assets` of `tests.rs`): assets `0, 1, 2` with
minimum balances `10, 20, 30`, accounts `1` and `2` holding `10000` of each,
and no liquidity anywhere. -/
def genesisW : State :=
  { ledger :=
    { balance := fun a acct =>
        if a < 3 ∧ (acct = 1 ∨ acct = 2) then 10000 else 0,
      minBalance := fun a => if a = 0 then 10 else if a = 1 then 20 else 30 },
    totalLiquidity := fun _ => 0,
    liquidity := fun _ _ => 0 }

/-- A state with the pool for the pair `(0, 1)` seeded with reserves
`(5000, 10000)` and total liquidity `100000`, all held by account `1`. -/
def seededW : State :=
  { ledger :=
    { balance := fun a acct =>
        if a < 3 ∧ (acct = 1 ∨ acct = 2) then 10000
        else if a = 0 ∧ acct = 1000001 then 5000
        else if a = 1 ∧ acct = 1000001 then 10000
        else 0,
      minBalance := fun a => if a = 0 then 10 else if a = 1 then 20 else 30 },
    totalLiquidity := fun p => if p = (0, 1) then 100000 else 0,
    liquidity := fun acct p => if acct = 1 ∧ p = (0, 1) then 100000 else 0 }

/-- Conservation of claim tokens for one pair `q`: the `Liquidity` entries
for `q` have finite support and sum to the pair's `TotalLiquidity` entry
(absent entries read as zero). -/
def Conserv (liq : Nat → Nat × Nat → Nat) (tot : Nat × Nat → Nat)
    (q : Nat × Nat) : Prop :=
  ∃ F : Finset Nat, (∀ acct, acct ∉ F → liq acct q = 0) ∧
    (∑ acct in F, liq acct q) = tot q

/-! ## Theorems -/

theorem cdiv_eq (x c : Nat) (hc : 0 < c) :
    cdiv x c = x / c + (if x % c = 0 then 0 else 1) := by
  unfold cdiv
  have hx := Nat.div_add_mod x c
  have hrc : x % c < c := Nat.mod_lt x hc
  by_cases h : x % c = 0
  · rw [if_pos h, Nat.add_zero]
    have hx2 : x + c - 1 = c * (x / c) + (c - 1) := by omega
    rw [hx2, Nat.mul_add_div hc]
    have hz : (c - 1) / c = 0 := Nat.div_eq_of_lt (by omega)
    omega
  · rw [if_neg h]
    have hx2 : x + c - 1 = c * (x / c + 1) + (x % c - 1) := by
      rw [Nat.mul_add, Nat.mul_one]; omega
    rw [hx2, Nat.mul_add_div hc]
    have hz : (x % c - 1) / c = 0 := Nat.div_eq_of_lt (by omega)
    omega

/-- Lower bound `c * ceil(x / c) ≥ x` for `c > 0`. -/
theorem le_mul_cdiv (x c : Nat) (hc : 0 < c) : x ≤ c * cdiv x c := by
  unfold cdiv
  have hx := Nat.div_add_mod (x + c - 1) c
  have hrc : (x + c - 1) % c < c := Nat.mod_lt _ hc
  omega

/-- Substrate's `Permill::mul_ceil` computes exactly `ceil (x * p / 10^6)`. -/
theorem permill_mul_ceil_eq (p x : Nat) :
    permill_mul_ceil p x = cdiv (x * p) 1000000 := by
  unfold permill_mul_ceil
  have hx : x * p = 1000000 * (x / 1000000 * p) + x % 1000000 * p := by
    conv_lhs => rw [← Nat.div_add_mod x 1000000]
    ring
  rw [hx]
  unfold cdiv
  rw [Nat.add_assoc, Nat.add_sub_assoc (by omega), Nat.mul_add_div (by omega)]
  have h2 := Nat.div_add_mod (x % 1000000 * p) 1000000
  have h3 : x % 1000000 * p % 1000000 < 1000000 := Nat.mod_lt _ (by omega)
  have h4 := Nat.div_add_mod (x % 1000000 * p + 1000000 - 1) 1000000
  have h5 : (x % 1000000 * p + 1000000 - 1) % 1000000 < 1000000 := Nat.mod_lt _ (by omega)
  by_cases h : x % 1000000 * p % 1000000 = 0
  · rw [if_pos h]; omega
  · rw [if_neg h]; omega

theorem bytesLt_asymm : ∀ xs ys, bytesLt xs ys = true → bytesLt ys xs = false
  | [], [] => by simp [bytesLt]
  | [], _ :: _ => by simp [bytesLt]
  | _ :: _, [] => by simp [bytesLt]
  | x :: xs, y :: ys => by
    simp only [bytesLt]
    intro h
    by_cases hxy : x < y
    · rw [if_neg (by omega), if_pos hxy]
    · rw [if_neg hxy] at h
      by_cases hyx : y < x
      · rw [if_pos hyx] at h; exact absurd h (by simp)
      · rw [if_neg hyx] at h
        rw [if_neg hyx, if_neg hxy]
        exact bytesLt_asymm xs ys h

theorem bytesLt_total : ∀ xs ys : List Nat, xs ≠ ys →
    bytesLt xs ys = true ∨ bytesLt ys xs = true
  | [], [] => by simp
  | [], _ :: _ => by simp [bytesLt]
  | _ :: _, [] => by simp [bytesLt]
  | x :: xs, y :: ys => by
    intro hne
    by_cases hxy : x < y
    · left; simp only [bytesLt]; rw [if_pos hxy]
    · by_cases hyx : y < x
      · right; simp only [bytesLt]; rw [if_pos hyx]
      · have hxyeq : x = y := by omega
        subst hxyeq
        have : xs ≠ ys := fun h => hne (by rw [h])
        rcases bytesLt_total xs ys this with h | h
        · left; simp only [bytesLt]; rw [if_neg hxy, if_neg hxy]; exact h
        · right; simp only [bytesLt]; rw [if_neg hxy, if_neg hxy]; exact h

/-- Injectivity of `u32le` on `u32` values. -/
theorem u32le_inj (a b : Nat) (ha : a < 4294967296) (hb : b < 4294967296)
    (h : u32le a = u32le b) : a = b := by
  simp only [u32le, List.cons.injEq, and_true] at h
  omega

/-- Order-independence of the canonical pair, for any encoding that
distinguishes the two ids. -/
theorem make_asset_pair_enc_comm (enc : Nat → List Nat) (a b : Nat)
    (hsep : a ≠ b → enc a ≠ enc b) :
    make_asset_pair_enc enc a b = make_asset_pair_enc enc b a := by
  unfold make_asset_pair_enc
  by_cases hab : a = b
  · subst hab; rfl
  · have hba : ¬b = a := fun hh => hab hh.symm
    have hne : enc a ≠ enc b := hsep hab
    rw [if_neg hab, if_neg hba]
    rcases bytesLt_total (enc a) (enc b) hne with h | h
    · have h2 := bytesLt_asymm _ _ h
      simp [h, h2]
    · have h2 := bytesLt_asymm _ _ h
      simp [h, h2]

/-! ## Basic inversion lemmas for the kernel, ledger and wrapper -/

theorem addChecked_ok {B a b r : Nat} (h : addChecked B a b = .ok r) :
    r = a + b ∧ a + b < B := by
  unfold addChecked at h
  split at h
  next hlt => injection h with h2; exact ⟨h2.symm, hlt⟩
  next => exact Except.noConfusion h

theorem subChecked_ok {a b r : Nat} (h : subChecked a b = .ok r) :
    b ≤ a ∧ r = a - b := by
  unfold subChecked at h
  split at h
  next hle => injection h with h2; exact ⟨hle, h2.symm⟩
  next => exact Except.noConfusion h

theorem mul_div_floor_ok {B a b c q : Nat} (h : mul_div_floor B a b c = .ok q) :
    a * b < WIDE ∧ c ≠ 0 ∧ q = a * b / c ∧ q < B := by
  unfold mul_div_floor mulWide at h
  repeat' split at h
  all_goals (try split_ifs at *)
  all_goals simp_all

theorem mul_div_floor_zero (B a b : Nat) (hw : a * b < WIDE) :
    mul_div_floor B a b 0 = .error .DivisionByZero := by
  unfold mul_div_floor mulWide
  rw [if_pos hw]
  rfl

theorem mul_div_ceil_ok {B a b c q : Nat} (h : mul_div_ceil B a b c = .ok q) :
    a * b + (c - 1) < WIDE ∧ c ≠ 0 ∧ q = cdiv (a * b) c ∧ q < B := by
  have hc1 : a * b + c - 1 = a * b + (c - 1) ∨ c = 0 := by omega
  have hcd : c ≠ 0 → cdiv (a * b) c = (a * b + (c - 1)) / c := by
    intro hc
    unfold cdiv
    rcases hc1 with h1 | h1
    · rw [h1]
    · exact absurd h1 hc
  unfold mul_div_ceil mulWide at h
  repeat' split at h
  all_goals (try split_ifs at *)
  all_goals simp_all

theorem mul_div_ceil_zero (B a b : Nat) :
    mul_div_ceil B a b 0 = .error .Underflow := by
  unfold mul_div_ceil
  rw [if_neg (by omega)]

@[simp] theorem balance_setBalance (L : Ledger) (asset acct v a x : Nat) :
    (L.setBalance asset acct v).balance a x =
      if a = asset ∧ x = acct then v else L.balance a x := rfl

@[simp] theorem minBalance_setBalance (L : Ledger) (asset acct v : Nat) :
    (L.setBalance asset acct v).minBalance = L.minBalance := rfl

@[simp] theorem setTotal_totalLiquidity (s : State) (pair : Nat × Nat) (v : Nat)
    (p : Nat × Nat) :
    (s.setTotal pair v).totalLiquidity p =
      if p = pair then v else s.totalLiquidity p := rfl

@[simp] theorem setTotal_liquidity (s : State) (pair : Nat × Nat) (v : Nat) :
    (s.setTotal pair v).liquidity = s.liquidity := rfl

@[simp] theorem setTotal_ledger (s : State) (pair : Nat × Nat) (v : Nat) :
    (s.setTotal pair v).ledger = s.ledger := rfl

@[simp] theorem setLiq_liquidity (s : State) (acct : Nat) (pair : Nat × Nat)
    (v : Nat) (a : Nat) (p : Nat × Nat) :
    (s.setLiq acct pair v).liquidity a p =
      if a = acct ∧ p = pair then v else s.liquidity a p := rfl

@[simp] theorem setLiq_totalLiquidity (s : State) (acct : Nat) (pair : Nat × Nat)
    (v : Nat) :
    (s.setLiq acct pair v).totalLiquidity = s.totalLiquidity := rfl

@[simp] theorem setLiq_ledger (s : State) (acct : Nat) (pair : Nat × Nat) (v : Nat) :
    (s.setLiq acct pair v).ledger = s.ledger := rfl

/-- Inversion for a successful ledger transfer between distinct accounts: the
actual amount moved is at least the requested amount (and exactly it when the
source must be kept alive), no more than the source held, and exactly the
actual amount moves from source to destination, with every other balance and
all minimum balances untouched. -/
theorem transfer_ok {L : Ledger} {B asset src dst amount : Nat} {keepAlive : Bool}
    {L' : Ledger} {act : Nat} (hne : src ≠ dst)
    (h : L.transfer B asset src dst amount keepAlive = .ok (L', act)) :
    amount ≤ act ∧ act ≤ L.balance asset src ∧
    L'.balance asset src = L.balance asset src - act ∧
    L'.balance asset dst = L.balance asset dst + act ∧
    (∀ a x, a ≠ asset ∨ (x ≠ src ∧ x ≠ dst) → L'.balance a x = L.balance a x) ∧
    L'.minBalance = L.minBalance ∧
    (keepAlive = true → act = amount) := by
  simp only [Ledger.transfer, Ledger.setBalance, Ne.symm hne, eq_self_iff_true,
    true_and, and_false, false_and, if_true, if_false, ite_true, ite_false] at h
  split_ifs at h
  all_goals
    first
    | exact Except.noConfusion h
    | (rw [Except.ok.injEq, Prod.mk.injEq] at h
       obtain ⟨hL, hact⟩ := h
       subst hL
       subst hact
       refine ⟨by omega, by omega, by simp [hne], by simp [hne, Ne.symm hne], ?_,
         by rfl, by intro hk; simp_all⟩
       intro a x hx
       rcases hx with hx | hx
       · simp [hx]
       · simp [hx.1, hx.2])

theorem transact_fst_of_error {α : Type} (s : State)
    (r : Except (State × Err) (State × α)) (e : Err)
    (h : (transact s r).2 = .error e) : (transact s r).1 = s := by
  rcases r with ⟨se, ee⟩ | ⟨s2, a2⟩
  · rfl
  · simp [transact] at h

theorem transact_snd_ok {α : Type} (s : State)
    (r : Except (State × Err) (State × α)) (out : α)
    (h : (transact s r).2 = .ok out) : r = .ok ((transact s r).1, out) := by
  rcases r with ⟨se, ee⟩ | ⟨s2, a2⟩
  · simp [transact] at h
  · injection h with h2
    subst h2
    rfl

/-! ## Further helper lemmas -/

theorem lt_WIDE_of_lt {B x y : Nat} (hx : x < B) (hy : y < B) (hB : B ≤ 2 ^ 128) :
    x * y < WIDE := by
  have h1 : x * y ≤ (2 ^ 128 - 1) * (2 ^ 128 - 1) :=
    Nat.mul_le_mul (by omega) (by omega)
  have h2 : (2 ^ 128 - 1) * (2 ^ 128 - 1) < WIDE := by unfold WIDE; norm_num
  omega

theorem make_asset_pair_eq (a b : Nat) (hab : a ≠ b) :
    make_asset_pair a b =
      .ok (if bytesLt (u32le a) (u32le b) then (a, b) else (b, a)) := by
  unfold make_asset_pair make_asset_pair_enc
  rw [if_neg hab]

theorem make_asset_pair_ok_ne {a b : Nat} {p : Nat × Nat}
    (h : make_asset_pair a b = .ok p) : a ≠ b := by
  intro hab
  subst hab
  unfold make_asset_pair make_asset_pair_enc at h
  rw [if_pos rfl] at h
  exact Except.noConfusion h

theorem make_asset_pair_ok_cases {a b : Nat} {p : Nat × Nat}
    (h : make_asset_pair a b = .ok p) : p = (a, b) ∨ p = (b, a) := by
  have hab := make_asset_pair_ok_ne h
  rw [make_asset_pair_eq a b hab] at h
  injection h with h2
  by_cases hlt : bytesLt (u32le a) (u32le b) = true
  · left; rw [if_pos hlt] at h2; exact h2.symm
  · right; rw [if_neg hlt] at h2; exact h2.symm

theorem transfer_error_ne {L : Ledger} {B asset src dst amount : Nat}
    {keepAlive : Bool} {e : Err}
    (h : L.transfer B asset src dst amount keepAlive = .error e) :
    e = .TokenBalanceLow ∨ e = .TokenWouldDie ∨ e = .TokenBelowMinimum ∨
    e = .TokenOverflow := by
  simp only [Ledger.transfer] at h
  split_ifs at h
  all_goals first
  | exact Except.noConfusion h
  | (injection h with h2; subst h2; simp)

theorem transact_snd_error {α : Type} (s : State)
    (r : Except (State × Err) (State × α)) (e : Err)
    (h : (transact s r).2 = .error e) : ∃ s2, r = .error (s2, e) := by
  rcases r with ⟨se, ee⟩ | ⟨s2, a2⟩
  · refine ⟨se, ?_⟩
    injection h with h2
    rw [h2]
  · simp [transact] at h

theorem cdiv_pos {x c : Nat} (hx : 0 < x) (hc : 0 < c) : 0 < cdiv x c := by
  unfold cdiv
  show 1 ≤ (x + c - 1) / c
  exact (Nat.one_le_div_iff hc).2 (by omega)

theorem mul_div_floor_eval (B a b c : Nat) (hw : a * b < WIDE) (hc : c ≠ 0) :
    mul_div_floor B a b c =
      if a * b / c < B then .ok (a * b / c) else .error .Overflow := by
  unfold mul_div_floor mulWide
  rw [if_pos hw]
  dsimp only
  rw [if_neg hc]

theorem mul_div_ceil_eval (B a b c : Nat) (hw : a * b + (c - 1) < WIDE)
    (hc : c ≠ 0) :
    mul_div_ceil B a b c =
      if cdiv (a * b) c < B then .ok (cdiv (a * b) c) else .error .Overflow := by
  have hcd : a * b + (c - 1) = a * b + c - 1 := by omega
  unfold mul_div_ceil mulWide
  rw [if_pos (show 1 ≤ c by omega)]
  dsimp only
  rw [if_pos (show a * b < WIDE by omega)]
  dsimp only
  rw [if_pos hw]
  dsimp only
  rw [if_neg hc]
  dsimp only
  unfold cdiv
  rw [hcd]

/-- Inversion for the arithmetic core of a successful exchange. -/
theorem exchange_amounts_ok {cfg : Config} {ps pd srcAmt fee npd dest : Nat}
    (h : exchange_amounts cfg ps pd srcAmt = .ok (fee, npd, dest)) :
    fee = permill_mul_ceil cfg.exchangeFee srcAmt ∧
    fee ≤ ps + srcAmt ∧ ps + srcAmt < cfg.B ∧ ps + srcAmt - fee ≠ 0 ∧
    npd = cdiv (ps * pd) (ps + srcAmt - fee) ∧ npd ≤ pd ∧ dest = pd - npd := by
  simp only [exchange_amounts] at h
  repeat' split at h
  all_goals try exact Except.noConfusion h
  rename_i x1 nps heq1 x2 lessFee heq2 x3 npd2 heq3 x4 dest2 heq4
  obtain ⟨h1, h1b⟩ := addChecked_ok heq1
  obtain ⟨h2, h2b⟩ := subChecked_ok heq2
  obtain ⟨h3a, h3b, h3c, h3d⟩ := mul_div_ceil_ok heq3
  obtain ⟨h4, h4b⟩ := subChecked_ok heq4
  rw [Except.ok.injEq, Prod.mk.injEq, Prod.mk.injEq] at h
  obtain ⟨hf, hn, hd⟩ := h
  subst hf; subst hn; subst hd
  subst h1; subst h2b; subst h3c; subst h4b
  exact ⟨rfl, h2, h1b, h3b, rfl, h4, rfl⟩

theorem mulWide_ok {a b v : Nat} (h : mulWide a b = .ok v) : v = a * b := by
  unfold mulWide at h
  split at h
  · injection h with h2; exact h2.symm
  · exact Except.noConfusion h

theorem get_min_pool_amount_ok {cfg : Config} {L : Ledger} {asset m : Nat}
    (h : get_min_pool_amount cfg L asset = .ok m) :
    m = L.minBalance asset * cfg.poolMinAmountMultiple ∧ m < cfg.B := by
  simp only [get_min_pool_amount] at h
  split at h
  · injection h with h2; subst h2; exact ⟨rfl, by assumption⟩
  · exact Except.noConfusion h

theorem transfer_ne_IPA (L : Ledger) (B asset src dst amount : Nat)
    (keepAlive : Bool) :
    L.transfer B asset src dst amount keepAlive ≠ .error .InsufficientPoolAmount := by
  intro h
  rcases transfer_error_ne h with h2 | h2 | h2 | h2 <;> exact Err.noConfusion h2

/-! ## Claim theorems -/

/-- C7 (counterexample): with `c = 0`, `mul_div_ceil` does NOT fail with
`DivisionByZero` as the claim states: its `checked_sub`-computed `c - 1` fails
first, with `Underflow`.  Concretely `mul_div_ceil(1, 1, 0)` on a 32-bit
balance type returns `Underflow`. -/
theorem C7_counterexample :
    mul_div_ceil 4294967296 1 1 0 = .error .Underflow ∧
    mul_div_ceil 4294967296 1 1 0 ≠ .error .DivisionByZero := by
  refine ⟨rfl, fun h => ?_⟩
  rw [mul_div_ceil_zero] at h
  injection h with h2
  exact ArithmeticError.noConfusion h2

/-- C7 (amended): for balance-typed inputs (`a, b, c < B`, with the wide type
genuinely double-width, `B ≤ 2^128`): with `c = 0`, `mul_div_floor` fails with
`DivisionByZero` but `mul_div_ceil` fails with `Underflow`; with `c ≠ 0`, both
fail with `Overflow` exactly when the exact `floor(a*b/c)` (respectively
`ceil(a*b/c)`) does not fit back into the balance type, and otherwise return
that exact value. -/
theorem C7_mul_div_rounding (B a b c : Nat) (ha : a < B) (hb : b < B)
    (hc : c < B) (hB : B ≤ 2 ^ 128) :
    (c = 0 → mul_div_floor B a b c = .error .DivisionByZero ∧
      mul_div_ceil B a b c = .error .Underflow) ∧
    (c ≠ 0 →
      mul_div_floor B a b c =
        (if a * b / c < B then .ok (a * b / c) else .error .Overflow) ∧
      mul_div_ceil B a b c =
        (if cdiv (a * b) c < B then .ok (cdiv (a * b) c) else .error .Overflow)) := by
  have hw : a * b < WIDE := lt_WIDE_of_lt ha hb hB
  have hw2 : a * b + (c - 1) < WIDE := by
    have h1 : a * b ≤ (2 ^ 128 - 1) * (2 ^ 128 - 1) :=
      Nat.mul_le_mul (by omega) (by omega)
    have h2 : (2 ^ 128 - 1) * (2 ^ 128 - 1) + 2 ^ 128 < WIDE := by
      unfold WIDE; norm_num
    omega
  constructor
  · intro h0
    subst h0
    exact ⟨mul_div_floor_zero B a b hw, mul_div_ceil_zero B a b⟩
  · intro hc0
    exact ⟨mul_div_floor_eval B a b c hw hc0, mul_div_ceil_eval B a b c hw2 hc0⟩

theorem C7_mul_div_rounding_witness :
    mul_div_floor 4294967296 3 5 2 =
      (if 3 * 5 / 2 < 4294967296 then .ok (3 * 5 / 2) else .error .Overflow) ∧
    mul_div_ceil 4294967296 3 5 2 =
      (if cdiv (3 * 5) 2 < 4294967296 then .ok (cdiv (3 * 5) 2)
       else .error .Overflow) :=
  (C7_mul_div_rounding 4294967296 3 5 2 (by norm_num) (by norm_num) (by norm_num)
    (by norm_num)).2 (by norm_num)

/-- C8: for any encoding on which distinct asset ids stay distinct (as SCALE
`Encode` guarantees), `make_asset_pair` fails with `AssetsIdentical` iff the
ids are equal, and otherwise returns the two ids ordered by the lexicographic
order of their encodings, independently of argument order. -/
theorem C8_make_asset_pair (enc : Nat → List Nat)
    (hinj : ∀ x y, enc x = enc y → x = y) (a b : Nat) :
    (make_asset_pair_enc enc a b = .error .AssetsIdentical ↔ a = b) ∧
    (∀ x y, make_asset_pair_enc enc a b = .ok (x, y) →
      bytesLt (enc x) (enc y) = true ∧ ((x, y) = (a, b) ∨ (x, y) = (b, a))) ∧
    make_asset_pair_enc enc a b = make_asset_pair_enc enc b a := by
  refine ⟨?_, ?_, make_asset_pair_enc_comm enc a b (fun hab he => hab (hinj _ _ he))⟩
  · unfold make_asset_pair_enc
    by_cases hab : a = b
    · simp [hab]
    · simp [hab]
  · intro x y hxy
    have hab : a ≠ b := by
      intro hh
      subst hh
      unfold make_asset_pair_enc at hxy
      rw [if_pos rfl] at hxy
      exact Except.noConfusion hxy
    unfold make_asset_pair_enc at hxy
    rw [if_neg hab] at hxy
    injection hxy with h2
    have hne : enc a ≠ enc b := fun he => hab (hinj _ _ he)
    by_cases hlt : bytesLt (enc a) (enc b) = true
    · rw [if_pos hlt] at h2
      injection h2 with hx hy
      subst hx
      subst hy
      exact ⟨hlt, Or.inl rfl⟩
    · rw [if_neg hlt] at h2
      injection h2 with hx hy
      subst hx
      subst hy
      have hgt : bytesLt (enc b) (enc a) = true := by
        rcases bytesLt_total (enc a) (enc b) hne with h | h
        · exact absurd h hlt
        · exact h
      exact ⟨hgt, Or.inr rfl⟩

theorem C8_make_asset_pair_witness :
    (make_asset_pair_enc (fun n => [n]) 2 7 = .error .AssetsIdentical ↔ 2 = 7) ∧
    (∀ x y, make_asset_pair_enc (fun n => [n]) 2 7 = .ok (x, y) →
      bytesLt [x] [y] = true ∧ ((x, y) = (2, 7) ∨ (x, y) = (7, 2))) ∧
    make_asset_pair_enc (fun n => [n]) 2 7 = make_asset_pair_enc (fun n => [n]) 7 2 :=
  C8_make_asset_pair (fun n => [n]) (fun x y h => by simpa using h) 2 7

/-- C9: `get_exchange_rate` is component-swapped symmetric in its arguments,
returns `(0, 0)` when the two assets are equal (invalid pair), and returns
`(0, 0)` when the pool account holds nothing of either asset (no pool). -/
theorem C9_get_exchange_rate (cfg : Config) (s : State) (a b : Nat)
    (ha : a < 4294967296) (hb : b < 4294967296) :
    get_exchange_rate cfg s a b = Prod.swap (get_exchange_rate cfg s b a) ∧
    (a = b → get_exchange_rate cfg s a b = (0, 0)) ∧
    (∀ pair, make_asset_pair a b = .ok pair →
      s.ledger.balance a (cfg.poolAccount pair) = 0 →
      s.ledger.balance b (cfg.poolAccount pair) = 0 →
      get_exchange_rate cfg s a b = (0, 0)) := by
  have hcomm : make_asset_pair a b = make_asset_pair b a :=
    make_asset_pair_enc_comm u32le a b (fun hab he => hab (u32le_inj a b ha hb he))
  refine ⟨?_, ?_, ?_⟩
  · unfold get_exchange_rate
    rw [hcomm]
    rcases hmk : make_asset_pair b a with e | pair
    · rfl
    · rfl
  · intro hab
    subst hab
    unfold get_exchange_rate make_asset_pair make_asset_pair_enc
    rw [if_pos rfl]
  · intro pair hpair hza hzb
    unfold get_exchange_rate
    rw [hpair]
    dsimp only
    rw [hza, hzb]

theorem C9_get_exchange_rate_witness :
    get_exchange_rate cfgW seededW 0 2 = Prod.swap (get_exchange_rate cfgW seededW 2 0) ∧
    ((0 : Nat) = 2 → get_exchange_rate cfgW seededW 0 2 = (0, 0)) ∧
    (∀ pair, make_asset_pair 0 2 = .ok pair →
      seededW.ledger.balance 0 (cfgW.poolAccount pair) = 0 →
      seededW.ledger.balance 2 (cfgW.poolAccount pair) = 0 →
      get_exchange_rate cfgW seededW 0 2 = (0, 0)) :=
  C9_get_exchange_rate cfgW seededW 0 2 (by norm_num) (by norm_num)

/-- C4: the three extrinsics are transactional (`#[transactional]`): whenever
a call returns an error — any arithmetic error, failed transfer or guard
violation, including the share checks that run after the transfers — the
returned state is exactly the pre-call state: registries and ledger balances
are untouched. -/
theorem C4_transactional_rollback (cfg : Config) (s : State)
    (sender aA minA maxA aB minB maxB liq srcAmt minDest : Nat) (e1 e2 e3 : Err) :
    ((add_liquidity cfg s sender aA minA maxA aB minB maxB).2 = .error e1 →
      (add_liquidity cfg s sender aA minA maxA aB minB maxB).1 = s) ∧
    ((remove_liquidity cfg s sender aA aB liq).2 = .error e2 →
      (remove_liquidity cfg s sender aA aB liq).1 = s) ∧
    ((exchange cfg s sender aA srcAmt aB minDest).2 = .error e3 →
      (exchange cfg s sender aA srcAmt aB minDest).1 = s) :=
  ⟨fun h => transact_fst_of_error s _ e1 h,
   fun h => transact_fst_of_error s _ e2 h,
   fun h => transact_fst_of_error s _ e3 h⟩

theorem C4_transactional_rollback_witness :
    (add_liquidity cfgW seededW 2 0 0 0 1 0 0).2 = .error .InsufficientPoolAmount ∧
    (add_liquidity cfgW seededW 2 0 0 0 1 0 0).1 = seededW ∧
    (remove_liquidity cfgW genesisW 1 0 2 500).2 =
      .error (.Arith .DivisionByZero) ∧
    (remove_liquidity cfgW genesisW 1 0 2 500).1 = genesisW :=
  ⟨rfl,
   (C4_transactional_rollback cfgW seededW 2 0 0 0 1 0 0 0 0 0
     .InsufficientPoolAmount .AssetsIdentical .AssetsIdentical).1 rfl,
   rfl,
   (C4_transactional_rollback cfgW genesisW 1 0 0 0 2 0 0 500 0 0
     .AssetsIdentical (.Arith .DivisionByZero) .AssetsIdentical).2.1 rfl⟩

/-- C10: removing any amount of liquidity (zero included) from a pair whose
total liquidity is zero (pool never seeded or fully drained) fails with the
`DivisionByZero` arithmetic error — `mul_div_floor(liquidity, reserve, 0)` is
hit before the underflow check — and leaves the whole state unchanged. -/
theorem C10_remove_liquidity_empty (cfg : Config) (s : State)
    (sender a b liq : Nat) (hab : a ≠ b)
    (ht1 : s.totalLiquidity (a, b) = 0) (ht2 : s.totalLiquidity (b, a) = 0)
    (hliq : liq < cfg.B)
    (hbal : ∀ asset acct, s.ledger.balance asset acct < cfg.B)
    (hB : cfg.B ≤ 2 ^ 128) :
    remove_liquidity cfg s sender a b liq = (s, .error (.Arith .DivisionByZero)) := by
  have hzero : ∀ pA, pA < cfg.B → mul_div_floor cfg.B liq pA 0 = .error .DivisionByZero :=
    fun pA hpA => mul_div_floor_zero cfg.B liq pA (lt_WIDE_of_lt hliq hpA hB)
  unfold remove_liquidity remove_liquidity_inner
  rw [make_asset_pair_eq a b hab]
  by_cases hlt : bytesLt (u32le a) (u32le b) = true
  · rw [if_pos hlt]
    dsimp only
    rw [ht1, hzero _ (hbal a (cfg.poolAccount (a, b)))]
    rfl
  · rw [if_neg hlt]
    dsimp only
    rw [ht2, hzero _ (hbal a (cfg.poolAccount (b, a)))]
    rfl

theorem C10_remove_liquidity_empty_witness :
    remove_liquidity cfgW genesisW 1 0 2 500 =
      (genesisW, .error (.Arith .DivisionByZero)) ∧
    remove_liquidity cfgW genesisW 1 0 2 0 =
      (genesisW, .error (.Arith .DivisionByZero)) :=
  ⟨C10_remove_liquidity_empty cfgW genesisW 1 0 2 500 (by norm_num) rfl rfl
      (by norm_num [cfgW])
      (fun asset acct => by
        show (if asset < 3 ∧ (acct = 1 ∨ acct = 2) then 10000 else 0) < 4294967296
        split_ifs <;> norm_num)
      (by norm_num [cfgW]),
   C10_remove_liquidity_empty cfgW genesisW 1 0 2 0 (by norm_num) rfl rfl
      (by norm_num [cfgW])
      (fun asset acct => by
        show (if asset < 3 ∧ (acct = 1 ∨ acct = 2) then 10000 else 0) < 4294967296
        split_ifs <;> norm_num)
      (by norm_num [cfgW])⟩

/-- C1: when both reserves are non-zero and every arithmetic step of the
exchange computation succeeds, the fee is `ceil(sourceAmount * ExchangeFee)`
(parts per million), the new destination reserve is
`ceil(reserveSource * reserveDest / (reserveSource + sourceAmount - fee))`
and the uncapped pay-out is `reserveDest` minus that value. -/
theorem C1_exchange_amounts_formula (cfg : Config) (ps pd srcAmt fee npd dest : Nat)
    (hps : ps ≠ 0) (hpd : pd ≠ 0)
    (h : exchange_amounts cfg ps pd srcAmt = .ok (fee, npd, dest)) :
    fee = cdiv (srcAmt * cfg.exchangeFee) 1000000 ∧
    npd = cdiv (ps * pd) (ps + srcAmt - fee) ∧
    dest = pd - npd := by
  obtain ⟨h1, h2, h3, h4, h5, h6, h7⟩ := exchange_amounts_ok h
  exact ⟨h1.trans (permill_mul_ceil_eq _ _), h5, h7⟩

theorem C1_exchange_amounts_formula_witness :
    exchange_amounts cfgW 5000 10000 20 = .ok (2, 9965, 35) ∧
    (2 = cdiv (20 * cfgW.exchangeFee) 1000000 ∧
     9965 = cdiv (5000 * 10000) (5000 + 20 - 2) ∧ 35 = 10000 - 9965) ∧
    (exchange cfgW seededW 2 0 20 1 35).2 = .ok (20, 35) :=
  ⟨rfl,
   C1_exchange_amounts_formula cfgW 5000 10000 20 2 9965 35 (by norm_num)
     (by norm_num) rfl,
   rfl⟩

/-- C3: characterization of the `(added_liquidity, amount_a, amount_b)`
computation of a successful `add_liquidity`: first provider mints
`max(maxA, maxB)` saturating-multiplied by `InitialLiquidityPerAssetUnit` and
transfers exactly the maxima; otherwise the minted claims round down from the
scarcer-valued max (wide-product comparison) and both transfer amounts are
recomputed rounding up. -/
theorem C3_add_liquidity_amounts (cfg : Config)
    (total pA pB maxA maxB added amtA amtB : Nat)
    (h : add_liquidity_amounts cfg total pA pB maxA maxB = .ok (added, amtA, amtB)) :
    (total = 0 →
      added = min (max maxA maxB * cfg.initialLiquidityPerAssetUnit) (cfg.B - 1) ∧
      amtA = maxA ∧ amtB = maxB) ∧
    (total ≠ 0 →
      (if maxA * pB < maxB * pA then added = maxA * total / pA
       else added = maxB * total / pB) ∧
      amtA = cdiv (added * pA) total ∧ amtB = cdiv (added * pB) total) := by
  by_cases ht : total = 0
  · subst ht
    unfold add_liquidity_amounts at h
    rw [if_pos rfl] at h
    injection h with h2
    simp only [Prod.mk.injEq] at h2
    obtain ⟨ha1, ha2, ha3⟩ := h2
    exact ⟨fun _ => ⟨ha1.symm, ha2.symm, ha3.symm⟩, fun hne => absurd rfl hne⟩
  · unfold add_liquidity_amounts at h
    rw [if_neg ht] at h
    rcases hq1 : mulWide maxA pB with e | mA
    · rw [hq1] at h; exact Except.noConfusion h
    rw [hq1] at h
    dsimp only at h
    rcases hq2 : mulWide maxB pA with e | mB
    · rw [hq2] at h; exact Except.noConfusion h
    rw [hq2] at h
    dsimp only at h
    obtain rfl : mA = maxA * pB := mulWide_ok hq1
    obtain rfl : mB = maxB * pA := mulWide_ok hq2
    by_cases hcmp : maxA * pB < maxB * pA
    · rw [if_pos hcmp] at h
      rcases hq3 : mul_div_floor cfg.B maxA total pA with e | added2
      · rw [hq3] at h; exact Except.noConfusion h
      rw [hq3] at h
      dsimp only at h
      rcases hq4 : mul_div_ceil cfg.B added2 pA total with e | amtA2
      · rw [hq4] at h; exact Except.noConfusion h
      rw [hq4] at h
      dsimp only at h
      rcases hq5 : mul_div_ceil cfg.B added2 pB total with e | amtB2
      · rw [hq5] at h; exact Except.noConfusion h
      rw [hq5] at h
      dsimp only at h
      injection h with h2
      simp only [Prod.mk.injEq] at h2
      obtain ⟨rfl, rfl, rfl⟩ := h2
      refine ⟨fun h0 => absurd h0 ht, fun _ => ⟨?_, ?_, ?_⟩⟩
      · rw [if_pos hcmp]
        exact (mul_div_floor_ok hq3).2.2.1
      · exact (mul_div_ceil_ok hq4).2.2.1
      · exact (mul_div_ceil_ok hq5).2.2.1
    · rw [if_neg hcmp] at h
      rcases hq3 : mul_div_floor cfg.B maxB total pB with e | added2
      · rw [hq3] at h; exact Except.noConfusion h
      rw [hq3] at h
      dsimp only at h
      rcases hq4 : mul_div_ceil cfg.B added2 pA total with e | amtA2
      · rw [hq4] at h; exact Except.noConfusion h
      rw [hq4] at h
      dsimp only at h
      rcases hq5 : mul_div_ceil cfg.B added2 pB total with e | amtB2
      · rw [hq5] at h; exact Except.noConfusion h
      rw [hq5] at h
      dsimp only at h
      injection h with h2
      simp only [Prod.mk.injEq] at h2
      obtain ⟨rfl, rfl, rfl⟩ := h2
      refine ⟨fun h0 => absurd h0 ht, fun _ => ⟨?_, ?_, ?_⟩⟩
      · rw [if_neg hcmp]
        exact (mul_div_floor_ok hq3).2.2.1
      · exact (mul_div_ceil_ok hq4).2.2.1
      · exact (mul_div_ceil_ok hq5).2.2.1

theorem C3_add_liquidity_amounts_witness :
    ((if 500 * 10000 < 1000 * 5000 then (10000 : Nat) = 500 * 100000 / 5000
      else (10000 : Nat) = 1000 * 100000 / 10000) ∧
     500 = cdiv (10000 * 5000) 100000 ∧ 1000 = cdiv (10000 * 10000) 100000) ∧
    (20000 = min (max 1000 2000 * cfgW.initialLiquidityPerAssetUnit) (cfgW.B - 1) ∧
     (1000 : Nat) = 1000 ∧ (2000 : Nat) = 2000) :=
  ⟨(C3_add_liquidity_amounts cfgW 100000 5000 10000 500 1000 10000 500 1000
      rfl).2 (by norm_num),
   (C3_add_liquidity_amounts cfgW 0 5000 10000 1000 2000 20000 1000 2000
      rfl).1 rfl⟩

/-- C6 (counterexample): in `add_liquidity` the share check is NOT skipped
when the sender's resulting claim balance for the pair is zero.  Adding zero
amounts to an existing pool mints zero claims, so the sender's resulting
balance is `0 + 0 = 0`, yet the call fails with `InsufficientPoolAmount`
instead of being skipped. -/
theorem C6_counterexample :
    (add_liquidity cfgW seededW 2 0 0 0 1 0 0).2 = .error .InsufficientPoolAmount ∧
    seededW.liquidity 2 (0, 1) = 0 ∧
    add_liquidity_amounts cfgW 100000 5000 10000 0 0 = .ok (0, 0, 0) :=
  ⟨rfl, rfl, rfl⟩

/-- C6 (amended): the share check of `add_liquidity`/`remove_liquidity` fails
with `InsufficientPoolAmount` exactly when
`floor(reserve * claims / total) < minimumBalance(asset) * PoolMinAmountMultiple`
(given its two checked computations succeed); and in `remove_liquidity` —
only there — the check is skipped entirely when the sender's resulting claim
balance is zero, so a full exit can never fail with
`InsufficientPoolAmount`. -/
theorem C6_share_check (cfg : Config) (L : Ledger)
    (reserve claims total asset x m : Nat)
    (s : State) (sender aA aB liq : Nat) (pair : Nat × Nat) :
    (mul_div_floor cfg.B reserve claims total = .ok x →
     get_min_pool_amount cfg L asset = .ok m →
       x = reserve * claims / total ∧
       m = L.minBalance asset * cfg.poolMinAmountMultiple ∧
       check_account_share cfg L reserve claims total asset =
         (if m ≤ x then .ok () else .error .InsufficientPoolAmount)) ∧
    (make_asset_pair aA aB = .ok pair → s.liquidity sender pair = liq →
      (remove_liquidity cfg s sender aA aB liq).2 ≠ .error .InsufficientPoolAmount) := by
  constructor
  · intro hx hm
    refine ⟨(mul_div_floor_ok hx).2.2.1, (get_min_pool_amount_ok hm).1, ?_⟩
    unfold check_account_share
    rw [hx]
    dsimp only
    rw [hm]
  · intro hpair hliq hcon
    obtain ⟨s2, hinner⟩ := transact_snd_error s _ _ hcon
    have hsub0 : subChecked liq liq = .ok 0 := by
      unfold subChecked
      rw [if_pos (Nat.le_refl liq), Nat.sub_self]
    unfold remove_liquidity_inner at hinner
    rw [hpair] at hinner
    dsimp only at hinner
    simp only [setTotal_liquidity, hliq] at hinner
    simp only [hsub0, eq_self_iff_true, if_true] at hinner
    repeat' split at hinner
    all_goals try exact Except.noConfusion hinner
    all_goals
      injection hinner with h2
    all_goals
      injection h2 with h2a h2b
    all_goals
      first
      | exact Err.noConfusion h2b
      | (subst h2b
         exact transfer_ne_IPA _ _ _ _ _ _ _ ‹_›)

theorem C6_share_check_witness :
    (0 = 1000 * 0 / 30000 ∧
     100 = genesisW.ledger.minBalance 0 * cfgW.poolMinAmountMultiple ∧
     check_account_share cfgW genesisW.ledger 1000 0 30000 0 =
       (if 100 ≤ 0 then .ok () else .error .InsufficientPoolAmount)) ∧
    (remove_liquidity cfgW seededW 1 0 1 100000).2 ≠ .error .InsufficientPoolAmount :=
  ⟨(C6_share_check cfgW genesisW.ledger 1000 0 30000 0 0 100 seededW 1 0 1 100000
      (0, 1)).1 rfl rfl,
   (C6_share_check cfgW genesisW.ledger 1000 0 30000 0 0 100 seededW 1 0 1 100000
      (0, 1)).2 rfl rfl⟩

/-- Registry-level inversion for a successful `add_liquidity` body: only the
canonical pair's total and the sender's claim balance change, both increased
by the added liquidity. -/
theorem add_liquidity_inner_ok {cfg : Config} {s : State}
    {sender aA minA maxA aB minB maxB : Nat} {s' : State} {actA actB added : Nat}
    (h : add_liquidity_inner cfg s sender aA minA maxA aB minB maxB =
      .ok (s', actA, actB, added)) :
    ∃ pair, make_asset_pair aA aB = .ok pair ∧
      (∀ a p, s'.liquidity a p =
        if a = sender ∧ p = pair then s.liquidity sender pair + added
        else s.liquidity a p) ∧
      (∀ p, s'.totalLiquidity p =
        if p = pair then s.totalLiquidity pair + added else s.totalLiquidity p) := by
  unfold add_liquidity_inner at h
  dsimp only at h
  repeat' split at h
  all_goals try exact Except.noConfusion h
  rename_i x9 pair heq9 x8 added2 amtA2 amtB2 heq8 hga hgb x7 lg1 actA2 heq7
    x6 pA1 heq6 x5 lg2 actB2 heq5 x4 pB1 heq4 x3 total1 heq3 x2 sl1 heq2
    x1 u1 heq1 x0 u2 heq0
  injection h with h2
  simp only [Prod.mk.injEq] at h2
  obtain ⟨hS, hA, hB, hD⟩ := h2
  subst hS
  subst hA
  subst hB
  subst hD
  have htl : total1 = s.totalLiquidity pair + added2 := (addChecked_ok heq3).1
  have hsl : sl1 = s.liquidity sender pair + added2 := by
    have h3 := (addChecked_ok heq2).1
    simpa using h3
  refine ⟨pair, heq9, ?_, ?_⟩
  · intro a p
    simp only [setLiq_liquidity, setTotal_liquidity]
    by_cases hc : a = sender ∧ p = pair
    · simp [hc, hsl]
    · simp [hc]
  · intro p
    simp only [setLiq_totalLiquidity, setTotal_totalLiquidity]
    by_cases hc : p = pair
    · simp [hc, htl]
    · simp [hc]

/-- Registry-level inversion for a successful `remove_liquidity` body: only
the canonical pair's total and the sender's claim balance change, both
decreased by the removed liquidity (which neither exceeds). -/
theorem remove_liquidity_inner_ok {cfg : Config} {s : State}
    {sender aA aB liq : Nat} {s' : State} {actA actB : Nat}
    (h : remove_liquidity_inner cfg s sender aA aB liq = .ok (s', actA, actB)) :
    ∃ pair, make_asset_pair aA aB = .ok pair ∧
      liq ≤ s.liquidity sender pair ∧ liq ≤ s.totalLiquidity pair ∧
      (∀ a p, s'.liquidity a p =
        if a = sender ∧ p = pair then s.liquidity sender pair - liq
        else s.liquidity a p) ∧
      (∀ p, s'.totalLiquidity p =
        if p = pair then s.totalLiquidity pair - liq else s.totalLiquidity p) := by
  unfold remove_liquidity_inner at h
  dsimp only at h
  repeat' split at h
  all_goals try exact Except.noConfusion h
  · rename_i x8 pair heqP x7 amtA0 heqA x6 amtB0 heqB x5 total1 heqT x4 sl1 heqS
      x3 lg1 actA2 heqTr1 x2 pA1 heqpa x1 lg2 actB2 heqTr2 x0 pB1 heqpb hz0
    injection h with h2
    simp only [Prod.mk.injEq] at h2
    obtain ⟨hS, hA, hB⟩ := h2
    subst hS
    subst hA
    subst hB
    obtain ⟨hle1, hv1⟩ := subChecked_ok heqT
    have hle2 : liq ≤ s.liquidity sender pair := by
      have h3 := (subChecked_ok heqS).1
      simpa using h3
    have hv2 : sl1 = s.liquidity sender pair - liq := by
      have h3 := (subChecked_ok heqS).2
      simpa using h3
    refine ⟨pair, heqP, hle2, hle1, ?_, ?_⟩
    · intro a p
      simp only [setLiq_liquidity, setTotal_liquidity]
      by_cases hc : a = sender ∧ p = pair
      · simp [hc, hv2]
      · simp [hc]
    · intro p
      simp only [setLiq_totalLiquidity, setTotal_totalLiquidity]
      by_cases hc : p = pair
      · simp [hc, hv1]
      · simp [hc]
  · rename_i x10 pair heqP x9 amtA0 heqA x8 amtB0 heqB x7 total1 heqT x6 sl1 heqS
      x5 lg1 actA2 heqTr1 x4 pA1 heqpa x3 lg2 actB2 heqTr2 x2 pB1 heqpb hnz
      x1 u1 heqc1 x0 u2 heqc2
    injection h with h2
    simp only [Prod.mk.injEq] at h2
    obtain ⟨hS, hA, hB⟩ := h2
    subst hS
    subst hA
    subst hB
    obtain ⟨hle1, hv1⟩ := subChecked_ok heqT
    have hle2 : liq ≤ s.liquidity sender pair := by
      have h3 := (subChecked_ok heqS).1
      simpa using h3
    have hv2 : sl1 = s.liquidity sender pair - liq := by
      have h3 := (subChecked_ok heqS).2
      simpa using h3
    refine ⟨pair, heqP, hle2, hle1, ?_, ?_⟩
    · intro a p
      simp only [setLiq_liquidity, setTotal_liquidity]
      by_cases hc : a = sender ∧ p = pair
      · simp [hc, hv2]
      · simp [hc]
    · intro p
      simp only [setLiq_totalLiquidity, setTotal_totalLiquidity]
      by_cases hc : p = pair
      · simp [hc, hv1]
      · simp [hc]

/-- Inversion for a successful `exchange` body (with the pool account distinct
from the sender): claim accounting is untouched, the arithmetic core
succeeded on non-zero reserves, and the pool's reserves move to
`reserveSource + actualSource` and `reserveDest - actualDest` with
`actualSource ≥ sourceAmount` and `actualDest ≤ destAmount`. -/
theorem exchange_inner_ok {cfg : Config} {s : State}
    {sender srcAsset srcAmt dstAsset minDest : Nat} {s' : State} {actS actD : Nat}
    (hpool : ∀ p, cfg.poolAccount p ≠ sender)
    (h : exchange_inner cfg s sender srcAsset srcAmt dstAsset minDest =
      .ok (s', actS, actD)) :
    s'.liquidity = s.liquidity ∧ s'.totalLiquidity = s.totalLiquidity ∧
    ∃ pair fee npd dest,
      make_asset_pair srcAsset dstAsset = .ok pair ∧
      exchange_amounts cfg (s.ledger.balance srcAsset (cfg.poolAccount pair))
        (s.ledger.balance dstAsset (cfg.poolAccount pair)) srcAmt =
        .ok (fee, npd, dest) ∧
      0 < s.ledger.balance srcAsset (cfg.poolAccount pair) ∧
      0 < s.ledger.balance dstAsset (cfg.poolAccount pair) ∧
      srcAmt ≤ actS ∧ actD ≤ dest ∧
      actD ≤ s.ledger.balance dstAsset (cfg.poolAccount pair) ∧
      s'.ledger.balance srcAsset (cfg.poolAccount pair) =
        s.ledger.balance srcAsset (cfg.poolAccount pair) + actS ∧
      s'.ledger.balance dstAsset (cfg.poolAccount pair) =
        s.ledger.balance dstAsset (cfg.poolAccount pair) - actD := by
  unfold exchange_inner at h
  dsimp only at h
  repeat' split at h
  all_goals try exact Except.noConfusion h
  rename_i x3 pair heqP hps0 hpd0 x2 fee npd dest heqE hmin x1 lg1 actS2 heqT1
    x0 lg2 actD2 heqT2
  injection h with h2
  simp only [Prod.mk.injEq] at h2
  obtain ⟨hS, hA, hD⟩ := h2
  subst hS
  subst hA
  subst hD
  have hne1 : sender ≠ cfg.poolAccount pair := fun hh => (hpool pair) hh.symm
  have hne2 : cfg.poolAccount pair ≠ sender := hpool pair
  have hsd : srcAsset ≠ dstAsset := make_asset_pair_ok_ne heqP
  obtain ⟨t1a, t1b, t1c, t1d, t1e, t1f, t1g⟩ := transfer_ok hne1 heqT1
  obtain ⟨t2a, t2b, t2c, t2d, t2e, t2f, t2g⟩ := transfer_ok hne2 heqT2
  have hlg1dst : lg1.balance dstAsset (cfg.poolAccount pair) =
      s.ledger.balance dstAsset (cfg.poolAccount pair) :=
    t1e dstAsset (cfg.poolAccount pair) (Or.inl (fun hh => hsd hh.symm))
  have hactD : actD2 =
      min dest (s.ledger.reducible dstAsset (cfg.poolAccount pair) true) :=
    t2g rfl
  refine ⟨rfl, rfl, pair, fee, npd, dest, heqP, heqE,
    Nat.pos_of_ne_zero hps0, Nat.pos_of_ne_zero hpd0, t1a, ?_, ?_, ?_, ?_⟩
  · rw [hactD]
    exact Nat.min_le_left _ _
  · rw [hlg1dst] at t2b
    exact t2b
  · show lg2.balance srcAsset (cfg.poolAccount pair) = _
    have h1 : lg2.balance srcAsset (cfg.poolAccount pair) =
        lg1.balance srcAsset (cfg.poolAccount pair) :=
      t2e srcAsset (cfg.poolAccount pair) (Or.inl hsd)
    rw [h1, t1d]
  · show lg2.balance dstAsset (cfg.poolAccount pair) = _
    rw [t2c, hlg1dst]

theorem Conserv_congr {liq1 liq2 : Nat → Nat × Nat → Nat}
    {tot1 tot2 : Nat × Nat → Nat} {q : Nat × Nat}
    (h : Conserv liq1 tot1 q)
    (hl : ∀ a, liq1 a q = liq2 a q) (ht : tot1 q = tot2 q) :
    Conserv liq2 tot2 q := by
  obtain ⟨F, hs, hm⟩ := h
  refine ⟨F, fun a ha => ?_, ?_⟩
  · rw [← hl a]
    exact hs a ha
  · rw [← ht, ← hm]
    exact Finset.sum_congr rfl (fun a _ => (hl a).symm)

/-- Updating one account's claims and the total in lock-step preserves
conservation: `T2 + old sender claims = old total + new sender claims`. -/
theorem Conserv_update {liq : Nat → Nat × Nat → Nat} {tot : Nat × Nat → Nat}
    (pair : Nat × Nat) (sender L2 T2 : Nat)
    (hrel : T2 + liq sender pair = tot pair + L2) (q : Nat × Nat)
    (h : Conserv liq tot q) :
    Conserv (fun a p => if a = sender ∧ p = pair then L2 else liq a p)
      (fun p => if p = pair then T2 else tot p) q := by
  obtain ⟨F, hs, hm⟩ := h
  by_cases hq : q = pair
  · subst hq
    refine ⟨insert sender F, ?_, ?_⟩
    · intro a ha
      have h1 : ¬a = sender := fun hh => ha (by rw [hh]; exact Finset.mem_insert_self sender F)
      have h2 : a ∉ F := fun hh => ha (Finset.mem_insert_of_mem hh)
      dsimp only
      simp [h1, hs a h2]
    · dsimp only
      simp only [eq_self_iff_true, and_true, if_true]
      have hupd : ∀ a ∈ insert sender F,
          (if a = sender then L2 else liq a q) =
          Function.update (fun x => liq x q) sender L2 a := by
        intro a _
        simp only [Function.update_apply]
      rw [Finset.sum_congr rfl hupd,
        Finset.sum_update_of_mem (Finset.mem_insert_self sender F)]
      have hsum1 : ∑ a in insert sender F, liq a q = tot q := by
        rw [Finset.sum_insert_of_eq_zero_if_not_mem]
        · exact hm
        · exact fun hna => hs sender hna
      have hsum2 : ∑ a in insert sender F, liq a q =
          (∑ a in insert sender F \ {sender}, liq a q) + liq sender q :=
        Finset.sum_eq_sum_diff_singleton_add (Finset.mem_insert_self sender F) _
      have hbeta : ∑ a in insert sender F \ {sender}, (fun x => liq x q) a =
          ∑ a in insert sender F \ {sender}, liq a q := rfl
      rw [hbeta]
      omega
  · refine Conserv_congr ⟨F, hs, hm⟩ (fun a => ?_) ?_
    · simp [hq]
    · simp [hq]

theorem exchange_inner_ok_registry {cfg : Config} {s : State}
    {sender srcAsset srcAmt dstAsset minDest : Nat} {s' : State} {actS actD : Nat}
    (h : exchange_inner cfg s sender srcAsset srcAmt dstAsset minDest =
      .ok (s', actS, actD)) :
    s'.liquidity = s.liquidity ∧ s'.totalLiquidity = s.totalLiquidity := by
  unfold exchange_inner at h
  dsimp only at h
  repeat' split at h
  all_goals try exact Except.noConfusion h
  injection h with h2
  simp only [Prod.mk.injEq] at h2
  obtain ⟨hS, h2a, h2b⟩ := h2
  subst hS
  exact ⟨rfl, rfl⟩

/-- C2: conservation of claim tokens — if for every pair the account claims
sum to the pair's total, then after any successful `add_liquidity`,
`remove_liquidity` or `exchange` they still do, for every pair. -/
theorem C2_conservation (cfg : Config) (s : State)
    (sender aA minA maxA aB minB maxB liq srcAmt minDest : Nat)
    (outs1 : Nat × Nat × Nat) (outs2 outs3 : Nat × Nat)
    (hpre : ∀ q, Conserv s.liquidity s.totalLiquidity q) :
    ((add_liquidity cfg s sender aA minA maxA aB minB maxB).2 = .ok outs1 →
      ∀ q, Conserv (add_liquidity cfg s sender aA minA maxA aB minB maxB).1.liquidity
        (add_liquidity cfg s sender aA minA maxA aB minB maxB).1.totalLiquidity q) ∧
    ((remove_liquidity cfg s sender aA aB liq).2 = .ok outs2 →
      ∀ q, Conserv (remove_liquidity cfg s sender aA aB liq).1.liquidity
        (remove_liquidity cfg s sender aA aB liq).1.totalLiquidity q) ∧
    ((exchange cfg s sender aA srcAmt aB minDest).2 = .ok outs3 →
      ∀ q, Conserv (exchange cfg s sender aA srcAmt aB minDest).1.liquidity
        (exchange cfg s sender aA srcAmt aB minDest).1.totalLiquidity q) := by
  refine ⟨?_, ?_, ?_⟩
  · unfold add_liquidity
    intro h q
    obtain ⟨a1, a2, a3⟩ := outs1
    have hinner := transact_snd_ok s _ _ h
    obtain ⟨pair, hP, hliq, htot⟩ := add_liquidity_inner_ok hinner
    exact Conserv_congr
      (Conserv_update pair sender (s.liquidity sender pair + a3)
        (s.totalLiquidity pair + a3) (by omega) q (hpre q))
      (fun a => (hliq a q).symm) (htot q).symm
  · unfold remove_liquidity
    intro h q
    obtain ⟨a1, a2⟩ := outs2
    have hinner := transact_snd_ok s _ _ h
    obtain ⟨pair, hP, hb1, hb2, hliq, htot⟩ := remove_liquidity_inner_ok hinner
    exact Conserv_congr
      (Conserv_update pair sender (s.liquidity sender pair - liq)
        (s.totalLiquidity pair - liq) (by omega) q (hpre q))
      (fun a => (hliq a q).symm) (htot q).symm
  · unfold exchange
    intro h q
    obtain ⟨a1, a2⟩ := outs3
    have hinner := transact_snd_ok s _ _ h
    obtain ⟨hliq, htot⟩ := exchange_inner_ok_registry hinner
    rw [hliq, htot]
    exact hpre q

theorem C2_conservation_witness :
    (∀ q, Conserv (add_liquidity cfgW seededW 1 0 0 500 1 0 1000).1.liquidity
      (add_liquidity cfgW seededW 1 0 0 500 1 0 1000).1.totalLiquidity q) ∧
    (∀ q, Conserv (remove_liquidity cfgW seededW 1 0 1 20000).1.liquidity
      (remove_liquidity cfgW seededW 1 0 1 20000).1.totalLiquidity q) ∧
    (∀ q, Conserv (exchange cfgW seededW 1 0 20 1 35).1.liquidity
      (exchange cfgW seededW 1 0 20 1 35).1.totalLiquidity q) := by
  have hpre : ∀ q, Conserv seededW.liquidity seededW.totalLiquidity q := by
    intro q
    refine ⟨{1}, fun a ha => ?_, ?_⟩
    · simp only [Finset.mem_singleton] at ha
      simp [seededW, ha]
    · by_cases hq : q = (0, 1) <;> simp [seededW, hq]
  have hall := C2_conservation cfgW seededW 1 0 0 500 1 0 1000 20000 20 35
    (500, 1000, 10000) (1000, 2000) (20, 35) hpre
  exact ⟨hall.1 rfl, hall.2.1 rfl, hall.2.2 rfl⟩

/-- C5: a successful exchange (by a sender distinct from every pool account)
never decreases the product of the pool's two reserves, and strictly
increases it whenever the computed fee is non-zero. -/
theorem C5_exchange_product (cfg : Config) (s : State)
    (sender srcAsset srcAmt dstAsset minDest actS actD : Nat)
    (hpool : ∀ p, cfg.poolAccount p ≠ sender)
    (h : (exchange cfg s sender srcAsset srcAmt dstAsset minDest).2 =
      .ok (actS, actD)) :
    ∃ pair, make_asset_pair srcAsset dstAsset = .ok pair ∧
      s.ledger.balance srcAsset (cfg.poolAccount pair) *
          s.ledger.balance dstAsset (cfg.poolAccount pair) ≤
        (exchange cfg s sender srcAsset srcAmt dstAsset minDest).1.ledger.balance
            srcAsset (cfg.poolAccount pair) *
          (exchange cfg s sender srcAsset srcAmt dstAsset minDest).1.ledger.balance
            dstAsset (cfg.poolAccount pair) ∧
      (permill_mul_ceil cfg.exchangeFee srcAmt ≠ 0 →
        s.ledger.balance srcAsset (cfg.poolAccount pair) *
            s.ledger.balance dstAsset (cfg.poolAccount pair) <
          (exchange cfg s sender srcAsset srcAmt dstAsset minDest).1.ledger.balance
              srcAsset (cfg.poolAccount pair) *
            (exchange cfg s sender srcAsset srcAmt dstAsset minDest).1.ledger.balance
              dstAsset (cfg.poolAccount pair)) := by
  unfold exchange at h ⊢
  have hinner := transact_snd_ok s _ _ h
  obtain ⟨hl, ht, pair, fee, npd, dest, hP, hE, hps, hpd, hsrc, hdd, hdp, hbs, hbd⟩ :=
    exchange_inner_ok hpool hinner
  obtain ⟨e1, e2, e3, e4, e5, e6, e7⟩ := exchange_amounts_ok hE
  have hlf_pos : 0 < s.ledger.balance srcAsset (cfg.poolAccount pair) + srcAmt - fee :=
    Nat.pos_of_ne_zero e4
  have hcore : s.ledger.balance srcAsset (cfg.poolAccount pair) *
      s.ledger.balance dstAsset (cfg.poolAccount pair) ≤
      (s.ledger.balance srcAsset (cfg.poolAccount pair) + srcAmt - fee) * npd := by
    rw [e5]
    exact le_mul_cdiv _ _ hlf_pos
  have hy : npd ≤ s.ledger.balance dstAsset (cfg.poolAccount pair) - actD := by omega
  refine ⟨pair, hP, ?_, ?_⟩
  · rw [hbs, hbd]
    have hx0 : s.ledger.balance srcAsset (cfg.poolAccount pair) + srcAmt - fee ≤
        s.ledger.balance srcAsset (cfg.poolAccount pair) + actS := by omega
    have hm0 := Nat.mul_le_mul hx0 hy
    omega
  · intro hfee
    rw [hbs, hbd]
    have hfee1 : 0 < fee := Nat.pos_of_ne_zero (by rw [e1]; exact hfee)
    have hnpd1 : 0 < npd := by
      rw [e5]
      exact cdiv_pos (Nat.mul_pos hps hpd) hlf_pos
    have hx1 : (s.ledger.balance srcAsset (cfg.poolAccount pair) + srcAmt - fee) + fee ≤
        s.ledger.balance srcAsset (cfg.poolAccount pair) + actS := by omega
    have hm1 := Nat.mul_le_mul hx1 hy
    have hadd : ((s.ledger.balance srcAsset (cfg.poolAccount pair) + srcAmt - fee) + fee) * npd =
        (s.ledger.balance srcAsset (cfg.poolAccount pair) + srcAmt - fee) * npd + fee * npd :=
      Nat.add_mul _ _ _
    have hfn : 0 < fee * npd := Nat.mul_pos hfee1 hnpd1
    omega

theorem C5_exchange_product_witness :
    ∃ pair, make_asset_pair 0 1 = .ok pair ∧
      seededW.ledger.balance 0 (cfgW.poolAccount pair) *
          seededW.ledger.balance 1 (cfgW.poolAccount pair) ≤
        (exchange cfgW seededW 2 0 20 1 35).1.ledger.balance 0 (cfgW.poolAccount pair) *
          (exchange cfgW seededW 2 0 20 1 35).1.ledger.balance 1 (cfgW.poolAccount pair) ∧
      (permill_mul_ceil cfgW.exchangeFee 20 ≠ 0 →
        seededW.ledger.balance 0 (cfgW.poolAccount pair) *
            seededW.ledger.balance 1 (cfgW.poolAccount pair) <
          (exchange cfgW seededW 2 0 20 1 35).1.ledger.balance 0 (cfgW.poolAccount pair) *
            (exchange cfgW seededW 2 0 20 1 35).1.ledger.balance 1 (cfgW.poolAccount pair)) :=
  C5_exchange_product cfgW seededW 2 0 20 1 35 20 35
    (fun p => by
      show 1000000 + 65536 * p.1 + p.2 ≠ 2
      omega)
    rfl

end Cfmm
